import Mathlib

/-!
Shallow embedding of the `my_scraper` repository, covering the crawl loop
(`src/scraper.py`), the page extractor's header logic (`src/scraper.py`,
`parse_page`), and the two aggregators (`src/normalize_data.py` and
`src/normalize_japanese_schools_ouput.py`).

Network access, HTML parsing internals and timestamps are external effects:
they are modelled by an abstract environment `net : String → Option ScrapedData`
(the composition of `fetch_page` and `parse_page`), so that the control flow of
`crawl_website` — frontier management, visited set, id numbering, link
scoping — is embedded exactly as written.
-/

/-- Python's `str.strip()` default whitespace set, restricted to the ASCII
whitespace characters that occur in this pipeline's data. -/
def pyIsSpace (c : Char) : Bool :=
  c = ' ' || c = '\t' || c = '\n' || c = '\r' || c = '\x0b' || c = '\x0c'

/-- Python's `s.strip()`: drop leading and trailing whitespace characters. -/
def pyStrip (s : String) : String :=
  String.mk (((s.toList.dropWhile pyIsSpace).reverse.dropWhile pyIsSpace).reverse)

/-- Python's `page.get(key, "")` on a dictionary field: the value when the key
is present, the empty string otherwise. -/
def pyGet (f : Option String) : String :=
  f.getD ""

/-- Lexicographic (code-point) order on character lists: Python's string
comparison, written as an executable function.  It coincides with the
`List.lt` order underlying Lean's `String` order (see `charListLt_iff`). -/
def charListLt : List Char → List Char → Bool
  | _, [] => false
  | [], _ :: _ => true
  | a :: as, b :: bs =>
    if a < b then true
    else if b < a then false
    else charListLt as bs

/-- Python's `a < b` on strings: code-point lexicographic comparison. -/
def pyStrLt (a b : String) : Bool :=
  charListLt a.toList b.toList

/-- Lookup in an insertion-ordered dictionary, modelled as an association
list (Python 3 dicts preserve insertion order). -/
def alistFind {α : Type} : List (String × α) → String → Option α
  | [], _ => none
  | (k', v) :: rest, k => if k' = k then some v else alistFind rest k

/-- Replace the value stored under a key of an insertion-ordered dictionary,
leaving the key order unchanged (Python's `aggregated[site_id] = ...` /
in-place mutation of `aggregated[site_id]`). -/
def alistUpdate {α : Type} (m : List (String × α)) (k : String) (f : α → α) :
    List (String × α) :=
  m.map (fun kv => if kv.1 = k then (kv.1, f kv.2) else kv)

namespace Scraper

/-- The dictionary produced by `parse_page` (scraper.py lines 78-85), before
`crawl_website` adds the `id` key.  The `url` key — always the URL that
`parse_page` received as its argument (line 79) — is attached by the caller
(`mkRecord`), so it is not repeated here.  `title` is `Option` because
`soup.title` may be absent (line 49). -/
structure ScrapedData where
  title : Option String
  headers : List (String × List String)
  data : String
  links : List String
  scrapedAt : String
deriving DecidableEq, Repr

/-- A page dictionary after `crawl_website` set `page_data['id']`
(scraper.py line 118).  `seq` is the number `len(visited)` interpolated into
the id string, kept alongside the rendered `id` so that theorems can speak
about the sequence number directly. -/
structure PageRecord where
  url : String
  title : Option String
  headers : List (String × List String)
  data : String
  links : List String
  scrapedAt : String
  id : String
  seq : Nat
deriving DecidableEq, Repr

/-- The id string `f"{site_id}-{len(visited)}"` of scraper.py line 118. -/
def mkId (site_id : String) (n : Nat) : String :=
  site_id ++ "-" ++ toString n

/-- Attach the page URL (scraper.py line 116: `parse_page(html, current_url)`)
and the id (lines 117-118) to a parsed page. -/
def mkRecord (pd : ScrapedData) (cur : String) (site_id : String) (n : Nat) : PageRecord :=
  { url := cur, title := pd.title, headers := pd.headers, data := pd.data,
    links := pd.links, scrapedAt := pd.scrapedAt, id := mkId site_id n, seq := n }

/-- Python's `s.startswith(p)`: `p` is a string prefix of `s`
(character-list prefix test). -/
def startswith (s p : String) : Bool :=
  p.toList.isPrefixOf s.toList

/-- The links admitted to the frontier by scraper.py lines 123-126:
`link.startswith(base_url) and link not in visited`.  The visited set at that
moment already contains the page being processed (line 106 ran before). -/
def enqueuedLinks (base_url : String) (visited : List String)
    (links : List String) : List String :=
  links.filter (fun l => startswith l base_url && !(visited.contains l))

/-- The `while` loop of `crawl_website` (scraper.py lines 99-126).
State: frontier `toVisit` (popped at the head, appended at the tail),
`visited` as an insertion-ordered duplicate-free list (the Python set,
with insertion order retained as ghost information), accumulated `results`,
and a ghost `log` of every URL ever appended to the frontier after the seed.
The loop exits when the frontier is empty or `len(visited) >= max_pages`. -/
def crawlLoop (net : String → Option ScrapedData) (site_id base_url : String)
    (max_pages : Nat) (toVisit visited : List String)
    (results : List PageRecord) (log : List String) :
    List PageRecord × List String × List String :=
  match toVisit with
  | [] => (results, visited, log)
  | cur :: rest =>
    if _h : visited.length < max_pages then
      if cur ∈ visited then
        crawlLoop net site_id base_url max_pages rest visited results log
      else
        match net cur with
        | none =>
            crawlLoop net site_id base_url max_pages rest (visited ++ [cur]) results log
        | some pd =>
            crawlLoop net site_id base_url max_pages
              (rest ++ enqueuedLinks base_url (visited ++ [cur]) pd.links)
              (visited ++ [cur])
              (results ++ [mkRecord pd cur site_id (visited.length + 1)])
              (log ++ enqueuedLinks base_url (visited ++ [cur]) pd.links)
    else (results, visited, log)
termination_by (max_pages - visited.length, toVisit.length)
decreasing_by
· apply Prod.Lex.right
  simp
· apply Prod.Lex.left
  simp only [List.length_append, List.length_singleton]
  omega
· apply Prod.Lex.left
  simp only [List.length_append, List.length_singleton]
  omega

/-- `crawl_website(site_id, base_url, max_pages)` (scraper.py lines 89-128):
run the loop from frontier `[base_url]`, empty visited set, no results. -/
def crawl_website (net : String → Option ScrapedData) (site_id base_url : String)
    (max_pages : Nat) : List PageRecord :=
  (crawlLoop net site_id base_url max_pages [base_url] [] [] []).1

/-- The final visited set of a crawl (ghost projection of the same loop). -/
def crawlVisited (net : String → Option ScrapedData) (site_id base_url : String)
    (max_pages : Nat) : List String :=
  (crawlLoop net site_id base_url max_pages [base_url] [] [] []).2.1

/-- Every URL appended to the frontier after the seed, in append order
(ghost projection of the same loop). -/
def crawlLog (net : String → Option ScrapedData) (site_id base_url : String)
    (max_pages : Nat) : List String :=
  (crawlLoop net site_id base_url max_pages [base_url] [] [] []).2.2

/-- A minimal concrete web used for concrete runs: the seed page `"b"` links
to `"ba"` (whose fetch fails) and `"bb"` (which succeeds with no links). -/
def netGap : String → Option ScrapedData := fun u =>
  if u = "b" then
    some { title := some "seed", headers := [], data := "seed text",
           links := ["ba", "bb"], scrapedAt := "2024-01-01T00:00:00Z" }
  else if u = "bb" then
    some { title := some "leaf", headers := [], data := "leaf text",
           links := [], scrapedAt := "2024-01-01T00:00:01Z" }
  else none

/-- The HTML facts `parse_page` reads off the soup (scraper.py lines 46-76):
the optional `<title>` text, the raw texts of all `h1`/`h2`/`h3` elements in
document order, the script/style-free body text, and the href targets already
resolved to absolute URLs (`urljoin` is parser territory and is abstracted:
`hrefs` holds the resolved results). -/
structure HtmlDoc where
  title : Option String
  h1 : List String
  h2 : List String
  h3 : List String
  textContent : String
  hrefs : List String
deriving DecidableEq, Repr

/-- The headers dictionary of scraper.py lines 52-63: for each level with at
least one match, the whitespace-trimmed texts of all matches, in document
order; a level with zero matches gets no key at all. -/
def parseHeaders (doc : HtmlDoc) : List (String × List String) :=
  (if doc.h1 ≠ [] then [("h1", doc.h1.map pyStrip)] else []) ++
  (if doc.h2 ≠ [] then [("h2", doc.h2.map pyStrip)] else []) ++
  (if doc.h3 ≠ [] then [("h3", doc.h3.map pyStrip)] else [])

/-- `parse_page` (scraper.py lines 30-87) minus the `url` passthrough (see
`ScrapedData`): trimmed title, headers by level, body text, links filtered to
those starting with `"http"`, and the capture timestamp `now` (the
`datetime.utcnow()` effect, supplied by the environment). -/
def parse_page (doc : HtmlDoc) (now : String) : ScrapedData :=
  { title := doc.title.map pyStrip,
    headers := parseHeaders doc,
    data := doc.textContent,
    links := doc.hrefs.filter (fun l => startswith l "http"),
    scrapedAt := now }

end Scraper

/-!
The two aggregation scripts, `src/normalize_data.py` and
`src/normalize_japanese_schools_ouput.py`, contain textually identical copies
of `is_clean_text`, `add_sub_page` and `add_staff_member` (lines 6-78 of
either file).  They are embedded once, shared by both aggregator models.
-/

/-- A character accepted by the `valid_char_pattern` regex of
`is_clean_text` (normalize_data.py lines 19-28): Hiragana, Katakana, Kanji,
half/full-width forms, printable ASCII, and common whitespace. -/
def validChar (c : Char) : Bool :=
  decide (0x3040 ≤ c.toNat ∧ c.toNat ≤ 0x309F) ||
  decide (0x30A0 ≤ c.toNat ∧ c.toNat ≤ 0x30FF) ||
  decide (0x4E00 ≤ c.toNat ∧ c.toNat ≤ 0x9FFF) ||
  decide (0xFF00 ≤ c.toNat ∧ c.toNat ≤ 0xFFEF) ||
  decide (0x20 ≤ c.toNat ∧ c.toNat ≤ 0x7E) ||
  c = '\n' || c = '\r' || c = '\t'

/-- `is_clean_text(data)` (normalize_data.py lines 6-38): false on empty text,
otherwise true iff the ratio of invalid characters is at most
`max_invalid_ratio = 0.1`.  The Python float comparison
`invalid_chars / total_chars <= 0.1` is modelled by the exact rational
comparison `10 * invalid ≤ total`. -/
def is_clean_text (data : String) : Bool :=
  if data = "" then false
  else
    10 * (data.toList.length - (data.toList.filter validChar).length) ≤ data.toList.length

/-- One entry of `content.sub_pages`: the `{"title": ..., "data": ...}` dict
appended by `add_sub_page` (normalize_data.py lines 57-60). -/
structure SubPage where
  title : String
  data : String
deriving DecidableEq, Repr, Inhabited

/-- `add_sub_page` (normalize_data.py lines 40-60), acting on the
`sub_pages` list it mutates: skip falsy (whitespace-only) data, skip unclean
data, skip exact duplicates of an already-stored entry's `data`, otherwise
append `{title, data}`. -/
def add_sub_page (subs : List SubPage) (page_title page_data : String) :
    List SubPage :=
  if pyStrip page_data = "" then subs
  else if !is_clean_text page_data then subs
  else if subs.any (fun sp => sp.data == page_data) then subs
  else subs ++ [{ title := page_title, data := page_data }]

/-- `add_staff_member` (normalize_data.py lines 62-78), acting on the
`staff_list` it mutates: skip if name or role is blank, skip exact
`(name, role)` duplicates, otherwise append. -/
def add_staff_member (staff_list : List (String × String)) (name role : String) :
    List (String × String) :=
  if pyStrip name = "" then staff_list
  else if pyStrip role = "" then staff_list
  else if staff_list.any (fun st => st.1 == name && st.2 == role) then staff_list
  else staff_list ++ [(name, role)]

namespace NormalizeData

/-- A raw page dict as read by `normalize_data.py`'s `aggregate_pages`
(the output of the crawl phase).  Each field is `Option`al: `none` models an
absent key, so `page.get(key, "")` is `pyGet`. -/
structure NPage where
  id : Option String
  url : Option String
  title : Option String
  scrapedAt : Option String
  data : Option String
deriving DecidableEq, Repr

/-- The site key of normalize_data.py line 91:
`page_id.split("-")[0] if "-" in page_id else page_id` — in both branches,
the longest prefix of `page_id` free of `'-'`. -/
def siteKeyOf (page_id : String) : String :=
  String.mk (page_id.toList.takeWhile (fun c => c != '-'))

/-- The key a raw page is grouped under. -/
def pageKey (p : NPage) : String :=
  siteKeyOf (pyGet p.id)

/-- The `source` sub-dict of an aggregated site (normalize_data.py
lines 96-101). -/
structure SourceInfo where
  id : String
  url : String
  title : String
  scrapedAt : String
deriving DecidableEq, Repr, Inhabited

/-- One aggregated site (normalize_data.py lines 95-196): the `source`
snapshot and `content.sub_pages`.  The `content.structured_data` subtree
(lines 104-194) is initialized to a fixed all-empty constant and is never
written again anywhere in this script (`add_staff_member` is dead code
here), so it is omitted from the model as a constant. -/
structure SiteObj where
  source : SourceInfo
  sub_pages : List SubPage
deriving DecidableEq, Repr, Inhabited

/-- The fresh site object of normalize_data.py lines 95-196 (the parts that
ever change): `source` snapshots the first page of the group, `sub_pages`
starts empty. -/
def initSite (sid : String) (p : NPage) : SiteObj :=
  { source := { id := sid, url := pyGet p.url, title := pyGet p.title,
                scrapedAt := pyGet p.scrapedAt },
    sub_pages := [] }

/-- The per-page merge of normalize_data.py lines 199-213: replace the
`source` triple when this page's `scrapedAt` is non-empty and earlier
(string comparison) than the stored one or nothing non-empty is stored yet,
then feed the page's title/data to `add_sub_page`. -/
def mergePage (obj : SiteObj) (p : NPage) : SiteObj :=
  let obj1 :=
    if pyGet p.scrapedAt ≠ "" ∧
        (obj.source.scrapedAt = "" ∨
          pyStrLt (pyGet p.scrapedAt) obj.source.scrapedAt = true) then
      { obj with
        source := { id := obj.source.id, url := pyGet p.url, title := pyGet p.title,
                    scrapedAt := pyGet p.scrapedAt } }
    else obj
  { obj1 with
    sub_pages := add_sub_page obj1.sub_pages ((p.title).getD "Untitled") (pyGet p.data) }

/-- One iteration of the `for page in raw_pages` loop (normalize_data.py
lines 88-213): materialize the site object if the key is unseen, then merge
the page into it. -/
def processPage (m : List (String × SiteObj)) (p : NPage) : List (String × SiteObj) :=
  match alistFind m (pageKey p) with
  | some _ => alistUpdate m (pageKey p) (fun o => mergePage o p)
  | none =>
      alistUpdate (m ++ [(pageKey p, initSite (pageKey p) p)]) (pageKey p)
        (fun o => mergePage o p)

/-- `aggregate_pages(raw_pages)` (normalize_data.py lines 80-215): fold the
pages into an insertion-ordered dictionary keyed by site key. -/
def aggregate_pages (raw_pages : List NPage) : List (String × SiteObj) :=
  raw_pages.foldl processPage []

/-- The pages of the input that fall into one site key's group, in input
order. -/
def groupOf (raw_pages : List NPage) (k : String) : List NPage :=
  raw_pages.filter (fun p => pageKey p == k)

end NormalizeData


namespace NormalizeJP

/-- A raw school-card record as read by
`normalize_japanese_schools_ouput.py`'s `aggregate_pages`.  Flat fields are
`Option`al strings (`none` = key absent); `details` is the nested map copied
verbatim into `structured_data`, modelled as an association list standing in
for the arbitrary JSON blob; `staff` is the list of
`{"name": ..., "role": ...}` member dicts. -/
structure JPage where
  url : Option String
  name : Option String
  description : Option String
  curriculum : Option String
  language : Option String
  ages : Option String
  fees : Option String
  location : Option String
  name_en : Option String
  description_en : Option String
  curriculum_en : Option String
  language_en : Option String
  ages_en : Option String
  fees_en : Option String
  location_en : Option String
  url_en : Option String
  url_jp : Option String
  details : Option (List (String × String))
  title : Option String
  data : Option String
  staff : List (Option String × Option String)
deriving DecidableEq, Repr

/-- Python's `url.split("/")[-1]`: the suffix of `url` after the last `'/'`
(the whole string when there is no `'/'`). -/
def lastSegment (u : String) : String :=
  String.mk ((u.toList.reverse.takeWhile (fun c => c != '/')).reverse)

/-- The site key of normalize_japanese_schools_ouput.py lines 90-95:
`url.split("/")[-1] if url else None`, with falsy (empty) keys causing the
record to be skipped (`if not site_id: continue`). -/
def jSiteKey (p : JPage) : Option String :=
  if pyGet p.url = "" then none
  else if lastSegment (pyGet p.url) = "" then none
  else some (lastSegment (pyGet p.url))

/-- One aggregated bilingual school record
(normalize_japanese_schools_ouput.py lines 101-180), restricted to the
fields the script ever writes after initialization: identity, the
recognized flat `_en`/`_jp` fields, the `structured_data` blob, `sub_pages`
and `staff_list`.  The remaining schema fields of the initializer
(affiliations, accreditation, events, campus, ... lines 121-179) are
constants that no later statement touches, and are omitted as such.
`language_*` and `ages_*` are absent from the initializer and created by
the assignments at lines 189-190/199-200; they are modelled as fields
initialized to `""`, which is indistinguishable because every record merge
assigns them. -/
structure JSiteObj where
  school_id : Nat
  site_id : String
  name_en : String
  name_jp : String
  location_en : String
  location_jp : String
  curriculum_en : String
  curriculum_jp : String
  description_en : String
  description_jp : String
  language_en : String
  language_jp : String
  ages_en : String
  ages_jp : String
  fees_en : String
  fees_jp : String
  url_en : String
  url_jp : String
  structured_data : List (String × String)
  sub_pages : List SubPage
  staff_list : List (String × String)
deriving DecidableEq, Repr, Inhabited

/-- The fresh record of lines 101-180: sequential `school_id`, the site key,
`url_en`/`url_jp` seeded from the page, everything else empty. -/
def initJSite (cid : Nat) (sid : String) (p : JPage) : JSiteObj :=
  { school_id := cid, site_id := sid,
    name_en := "", name_jp := "", location_en := "", location_jp := "",
    curriculum_en := "", curriculum_jp := "", description_en := "", description_jp := "",
    language_en := "", language_jp := "", ages_en := "", ages_jp := "",
    fees_en := "", fees_jp := "",
    url_en := pyGet p.url_en, url_jp := pyGet p.url_jp,
    structured_data := [], sub_pages := [], staff_list := [] }

/-- The per-record merge of lines 185-217: every recognized flat field is
assigned `page.get(field, "")` unconditionally, `structured_data` is
assigned `page.get("details", {})` unconditionally, then the record's
title/data go to `add_sub_page` and its `staff` entries to
`add_staff_member`. -/
def mergeJPage (o : JSiteObj) (p : JPage) : JSiteObj :=
  let o1 :=
    { o with
      name_jp := pyGet p.name, description_jp := pyGet p.description,
      curriculum_jp := pyGet p.curriculum, language_jp := pyGet p.language,
      ages_jp := pyGet p.ages, fees_jp := pyGet p.fees,
      location_jp := pyGet p.location, url_jp := pyGet p.url,
      name_en := pyGet p.name_en, description_en := pyGet p.description_en,
      curriculum_en := pyGet p.curriculum_en, language_en := pyGet p.language_en,
      ages_en := pyGet p.ages_en, fees_en := pyGet p.fees_en,
      location_en := pyGet p.location_en, url_en := pyGet p.url_en,
      structured_data := p.details.getD [] }
  let o2 :=
    { o1 with
      sub_pages := add_sub_page o1.sub_pages ((p.title).getD "Untitled") (pyGet p.data) }
  { o2 with
    staff_list := p.staff.foldl
      (fun sl m => add_staff_member sl (pyGet m.1) (pyGet m.2)) o2.staff_list }

/-- One iteration of the `for page in raw_pages` loop (lines 88-217).  The
state carries `current_id` (next `school_id` to assign, starting at 1)
alongside the insertion-ordered dictionary.  Records whose site key is falsy
are skipped entirely. -/
def processJPage (st : Nat × List (String × JSiteObj)) (p : JPage) :
    Nat × List (String × JSiteObj) :=
  match jSiteKey p with
  | none => st
  | some sid =>
    match alistFind st.2 sid with
    | some _ => (st.1, alistUpdate st.2 sid (fun o => mergeJPage o p))
    | none =>
        (st.1 + 1,
         alistUpdate (st.2 ++ [(sid, initJSite st.1 sid p)]) sid (fun o => mergeJPage o p))

/-- The whole loop state after processing a list of records:
`current_id` together with the dictionary. -/
def aggState (raw_pages : List JPage) : Nat × List (String × JSiteObj) :=
  raw_pages.foldl processJPage (1, [])

/-- `aggregate_pages(raw_pages)` (lines 80-219): fold the records into an
insertion-ordered dictionary keyed by the derived site key, with `school_id`
assigned sequentially from 1 in first-seen order. -/
def aggregate_pages (raw_pages : List JPage) : List (String × JSiteObj) :=
  (aggState raw_pages).2

/-- The records of the input that fall into one site key's group, in input
order. -/
def jGroupOf (raw_pages : List JPage) (k : String) : List JPage :=
  raw_pages.filter (fun p => jSiteKey p == some k)

/-- The flat-field projection of a `JSiteObj`: everything the merge of
lines 186-207 assigns unconditionally, in source order. -/
def flatFields (o : JSiteObj) : List String :=
  [o.name_jp, o.description_jp, o.curriculum_jp, o.language_jp, o.ages_jp,
   o.fees_jp, o.location_jp, o.url_jp,
   o.name_en, o.description_en, o.curriculum_en, o.language_en, o.ages_en,
   o.fees_en, o.location_en, o.url_en]

/-- The values those same fields receive when record `p` is merged. -/
def flatOfPage (p : JPage) : List String :=
  [pyGet p.name, pyGet p.description, pyGet p.curriculum, pyGet p.language,
   pyGet p.ages, pyGet p.fees, pyGet p.location, pyGet p.url,
   pyGet p.name_en, pyGet p.description_en, pyGet p.curriculum_en,
   pyGet p.language_en, pyGet p.ages_en, pyGet p.fees_en, pyGet p.location_en,
   pyGet p.url_en]

end NormalizeJP

/-- First-seen order of a key sequence: the fold that keeps the first
occurrence of each key and drops later repeats, mirroring how an
insertion-ordered dictionary accumulates its keys. -/
def firstSeen (l : List String) : List String :=
  l.foldl (fun acc k => if k ∈ acc then acc else acc ++ [k]) []

namespace NormalizeData

/-- The sub-page list that folding one group's pages through `add_sub_page`
produces (the only way `sub_pages` ever changes). -/
def subAggregate (g : List NPage) : List SubPage :=
  g.foldl (fun sps p => add_sub_page sps ((p.title).getD "Untitled") (pyGet p.data)) []

/-- `src` is the snapshot of the earliest-scraped record of the group `g`:
some record `w` of `g` with non-empty `scrapedAt` supplies `url`, `title`
and `scrapedAt`; `w`'s timestamp is a lexicographic minimum among the
non-empty ones, and every record before `w` with a non-empty timestamp is
strictly later (so ties are broken in favour of the first record
encountered). -/
def IsEarliestSource (g : List NPage) (src : SourceInfo) : Prop :=
  ∃ g₁ w g₂, g = g₁ ++ w :: g₂ ∧
    pyGet w.scrapedAt ≠ "" ∧
    src.url = pyGet w.url ∧ src.title = pyGet w.title ∧
    src.scrapedAt = pyGet w.scrapedAt ∧
    (∀ q ∈ g, pyGet q.scrapedAt ≠ "" → pyGet w.scrapedAt ≤ pyGet q.scrapedAt) ∧
    (∀ q ∈ g₁, pyGet q.scrapedAt ≠ "" → pyGet w.scrapedAt < pyGet q.scrapedAt)

/-- A two-page input for one site: the second page was scraped earlier, so
its snapshot must win the `source` merge. -/
def ndSample : List NPage :=
  [ { id := some "1-1", url := some "http://s1/a", title := some "A",
      scrapedAt := some "2024-01-02T00:00:00Z", data := some "alpha text" },
    { id := some "1-2", url := some "http://s1/b", title := some "B",
      scrapedAt := some "2024-01-01T00:00:00Z", data := some "beta text" } ]

end NormalizeData

namespace NormalizeJP

/-- A record with every key absent, used as a base for concrete samples. -/
def jEmpty : JPage :=
  { url := none, name := none, description := none, curriculum := none,
    language := none, ages := none, fees := none, location := none,
    name_en := none, description_en := none, curriculum_en := none,
    language_en := none, ages_en := none, fees_en := none, location_en := none,
    url_en := none, url_jp := none, details := none, title := none,
    data := none, staff := [] }

/-- A record grouped under key `"x"` carrying a `name`. -/
def jNamed : JPage :=
  { jEmpty with url := some "site/x", name := some "Alpha" }

/-- A later record in the same group with no `name` key at all. -/
def jNameless : JPage :=
  { jEmpty with url := some "site/x" }

/-- A record whose `url` ends in `'/'`, so its trailing path segment is
empty. -/
def jSlashUrl : JPage :=
  { jEmpty with url := some "http://x/", name := some "Zeta" }

/-- A well-formed record under key `"a"`. -/
def jGood : JPage :=
  { jEmpty with url := some "http://x/a", name := some "Beta" }

end NormalizeJP

/-! ## Generic association-list lemmas -/

theorem alistFind_update_ne {α : Type} (m : List (String × α)) (k' k : String)
    (f : α → α) (h : k' ≠ k) : alistFind (alistUpdate m k' f) k = alistFind m k := by
  induction m with
  | nil => rfl
  | cons kv rest ih =>
      obtain ⟨a, v⟩ := kv
      by_cases ha : a = k'
      · subst ha
        simp only [alistUpdate, List.map_cons, if_pos rfl] at ih ⊢
        simp only [alistFind, if_neg h]
        exact ih
      · simp only [alistUpdate, List.map_cons, if_neg ha] at ih ⊢
        by_cases hak : a = k
        · simp only [alistFind, if_pos hak]
        · simp only [alistFind, if_neg hak]
          exact ih

theorem alistFind_update_eq {α : Type} (m : List (String × α)) (k : String)
    (f : α → α) : alistFind (alistUpdate m k f) k = (alistFind m k).map f := by
  induction m with
  | nil => rfl
  | cons kv rest ih =>
      obtain ⟨a, v⟩ := kv
      by_cases ha : a = k
      · subst ha
        simp only [alistUpdate, List.map_cons, if_pos rfl] at ih ⊢
        simp [alistFind]
      · simp only [alistUpdate, List.map_cons, if_neg ha] at ih ⊢
        simp only [alistFind, if_neg ha]
        exact ih

theorem alistFind_append_right {α : Type} (m : List (String × α)) (k' k : String)
    (v : α) (h : alistFind m k = none) :
    alistFind (m ++ [(k', v)]) k = if k' = k then some v else none := by
  induction m with
  | nil => rfl
  | cons kv rest ih =>
      obtain ⟨a, w⟩ := kv
      by_cases hak : a = k
      · simp [alistFind, hak] at h
      · simp only [alistFind, if_neg hak] at h
        simp only [List.cons_append, alistFind, if_neg hak]
        exact ih h

theorem alistFind_append_left {α : Type} (m : List (String × α)) (k' k : String)
    (v : α) (h : k' ≠ k) : alistFind (m ++ [(k', v)]) k = alistFind m k := by
  induction m with
  | nil => simp [alistFind, h]
  | cons kv rest ih =>
      obtain ⟨a, w⟩ := kv
      by_cases hak : a = k
      · simp only [List.cons_append, alistFind, if_pos hak]
      · simp only [List.cons_append, alistFind, if_neg hak]
        exact ih

theorem alistFind_none_iff {α : Type} (m : List (String × α)) (k : String) :
    alistFind m k = none ↔ k ∉ m.map Prod.fst := by
  induction m with
  | nil => simp [alistFind]
  | cons kv rest ih =>
      obtain ⟨a, v⟩ := kv
      by_cases hak : a = k
      · simp [alistFind, hak]
      · simp [alistFind, hak, ih, Ne.symm hak]

theorem alistUpdate_keys {α : Type} (m : List (String × α)) (k : String) (f : α → α) :
    (alistUpdate m k f).map Prod.fst = m.map Prod.fst := by
  induction m with
  | nil => rfl
  | cons kv rest ih =>
      obtain ⟨a, v⟩ := kv
      by_cases hak : a = k
      · subst hak
        simp only [alistUpdate, List.map_cons, if_pos rfl] at ih ⊢
        simpa using ih
      · simp only [alistUpdate, List.map_cons, if_neg hak] at ih ⊢
        simpa using ih

/-! ## Crawler lemmas (scraper.py) -/

namespace Scraper

theorem crawlLoop_visited_nodup (net : String → Option ScrapedData)
    (site_id base_url : String) (mp : Nat) (tv vis : List String)
    (res : List PageRecord) (log : List String) :
    vis.Nodup → (crawlLoop net site_id base_url mp tv vis res log).2.1.Nodup := by
  induction tv, vis, res, log using crawlLoop.induct net site_id base_url mp with
  | case1 vis res log =>
      intro hv; rw [crawlLoop]; exact hv
  | case2 vis res log cur rest h hmem ih =>
      intro hv; rw [crawlLoop]; simp only [dif_pos h, if_pos hmem]; exact ih hv
  | case3 vis res log cur rest h hmem hnet ih =>
      intro hv; rw [crawlLoop]; simp only [dif_pos h, if_neg hmem, hnet]
      exact ih (by simp [List.nodup_append, hv, hmem])
  | case4 vis res log cur rest h hmem pd hnet ih =>
      intro hv; rw [crawlLoop]; simp only [dif_pos h, if_neg hmem, hnet]
      exact ih (by simp [List.nodup_append, hv, hmem])
  | case5 vis res log cur rest h =>
      intro hv; rw [crawlLoop]; simp only [dif_neg h]; exact hv

theorem crawlLoop_visited_length (net : String → Option ScrapedData)
    (site_id base_url : String) (mp : Nat) (tv vis : List String)
    (res : List PageRecord) (log : List String) :
    (crawlLoop net site_id base_url mp tv vis res log).2.1.length ≤ max vis.length mp := by
  induction tv, vis, res, log using crawlLoop.induct net site_id base_url mp with
  | case1 vis res log =>
      rw [crawlLoop]; exact le_max_left _ _
  | case2 vis res log cur rest h hmem ih =>
      rw [crawlLoop]; simp only [dif_pos h, if_pos hmem]; exact ih
  | case3 vis res log cur rest h hmem hnet ih =>
      rw [crawlLoop]; simp only [dif_pos h, if_neg hmem, hnet]
      refine le_trans ih ?_
      simp only [List.length_append, List.length_singleton, Nat.max_le, le_max_iff]
      omega
  | case4 vis res log cur rest h hmem pd hnet ih =>
      rw [crawlLoop]; simp only [dif_pos h, if_neg hmem, hnet]
      refine le_trans ih ?_
      simp only [List.length_append, List.length_singleton, Nat.max_le, le_max_iff]
      omega
  | case5 vis res log cur rest h =>
      rw [crawlLoop]; simp only [dif_neg h]; exact le_max_left _ _

theorem crawlLoop_results_urls (net : String → Option ScrapedData)
    (site_id base_url : String) (mp : Nat) (tv vis : List String)
    (res : List PageRecord) (log : List String) :
    (res.map PageRecord.url).Sublist vis →
    ((crawlLoop net site_id base_url mp tv vis res log).1.map PageRecord.url).Sublist
      (crawlLoop net site_id base_url mp tv vis res log).2.1 := by
  induction tv, vis, res, log using crawlLoop.induct net site_id base_url mp with
  | case1 vis res log =>
      intro hs; rw [crawlLoop]; exact hs
  | case2 vis res log cur rest h hmem ih =>
      intro hs; rw [crawlLoop]; simp only [dif_pos h, if_pos hmem]; exact ih hs
  | case3 vis res log cur rest h hmem hnet ih =>
      intro hs; rw [crawlLoop]; simp only [dif_pos h, if_neg hmem, hnet]
      exact ih (hs.trans (List.sublist_append_left vis [cur]))
  | case4 vis res log cur rest h hmem pd hnet ih =>
      intro hs; rw [crawlLoop]; simp only [dif_pos h, if_neg hmem, hnet]
      refine ih ?_
      simpa [mkRecord] using hs.append (List.Sublist.refl [cur])
  | case5 vis res log cur rest h =>
      intro hs; rw [crawlLoop]; simp only [dif_neg h]; exact hs

theorem crawlLoop_log_scoped (net : String → Option ScrapedData)
    (site_id base_url : String) (mp : Nat) (tv vis : List String)
    (res : List PageRecord) (log : List String) :
    (∀ l ∈ log, startswith l base_url = true) →
    ∀ l ∈ (crawlLoop net site_id base_url mp tv vis res log).2.2,
      startswith l base_url = true := by
  induction tv, vis, res, log using crawlLoop.induct net site_id base_url mp with
  | case1 vis res log =>
      intro hl; rw [crawlLoop]; exact hl
  | case2 vis res log cur rest h hmem ih =>
      intro hl; rw [crawlLoop]; simp only [dif_pos h, if_pos hmem]; exact ih hl
  | case3 vis res log cur rest h hmem hnet ih =>
      intro hl; rw [crawlLoop]; simp only [dif_pos h, if_neg hmem, hnet]; exact ih hl
  | case4 vis res log cur rest h hmem pd hnet ih =>
      intro hl; rw [crawlLoop]; simp only [dif_pos h, if_neg hmem, hnet]
      refine ih ?_
      intro l hml
      rcases List.mem_append.mp hml with hml | hml
      · exact hl l hml
      · have := (List.mem_filter.mp hml).2
        simp only [Bool.and_eq_true] at this
        exact this.1
  | case5 vis res log cur rest h =>
      intro hl; rw [crawlLoop]; simp only [dif_neg h]; exact hl

theorem crawlLoop_seq_inv (net : String → Option ScrapedData)
    (site_id base_url : String) (mp : Nat) (tv vis : List String)
    (res : List PageRecord) (log : List String) :
    (∀ r ∈ res, r.id = mkId site_id r.seq ∧ 1 ≤ r.seq ∧ r.seq ≤ vis.length) →
    (res.map PageRecord.seq).Pairwise (· < ·) →
    (∀ r ∈ (crawlLoop net site_id base_url mp tv vis res log).1,
        r.id = mkId site_id r.seq ∧ 1 ≤ r.seq) ∧
    ((crawlLoop net site_id base_url mp tv vis res log).1.map PageRecord.seq).Pairwise
      (· < ·) := by
  induction tv, vis, res, log using crawlLoop.induct net site_id base_url mp with
  | case1 vis res log =>
      intro h1 h2; rw [crawlLoop]
      exact ⟨fun r hr => ⟨(h1 r hr).1, (h1 r hr).2.1⟩, h2⟩
  | case2 vis res log cur rest h hmem ih =>
      intro h1 h2; rw [crawlLoop]; simp only [dif_pos h, if_pos hmem]; exact ih h1 h2
  | case3 vis res log cur rest h hmem hnet ih =>
      intro h1 h2; rw [crawlLoop]; simp only [dif_pos h, if_neg hmem, hnet]
      refine ih ?_ h2
      intro r hr
      have := h1 r hr
      refine ⟨this.1, this.2.1, ?_⟩
      simp only [List.length_append, List.length_singleton]
      omega
  | case4 vis res log cur rest h hmem pd hnet ih =>
      intro h1 h2; rw [crawlLoop]; simp only [dif_pos h, if_neg hmem, hnet]
      refine ih ?_ ?_
      · intro r hr
        rcases List.mem_append.mp hr with hr | hr
        · have := h1 r hr
          refine ⟨this.1, this.2.1, ?_⟩
          simp only [List.length_append, List.length_singleton]
          omega
        · rcases List.mem_singleton.mp hr with rfl
          refine ⟨rfl, by simp only [mkRecord]; omega, ?_⟩
          simp only [mkRecord, List.length_append, List.length_singleton]
          omega
      · rw [List.map_append]
        refine List.pairwise_append.mpr ⟨h2, by simp, ?_⟩
        intro a ha b hb
        rcases List.mem_map.mp ha with ⟨r, hr, rfl⟩
        simp only [List.map_cons, List.map_nil, List.mem_singleton, mkRecord] at hb
        subst hb
        have := (h1 r hr).2.2
        omega
  | case5 vis res log cur rest h =>
      intro h1 h2; rw [crawlLoop]; simp only [dif_neg h]
      exact ⟨fun r hr => ⟨(h1 r hr).1, (h1 r hr).2.1⟩, h2⟩

end Scraper

namespace Scraper

/-- **C5.** For every `crawl(siteId, seedUrl, maxPages)`: the visited set
never holds more than `maxPages` distinct URLs (it only ever grows, so the
bound on the final set bounds every intermediate step), no URL is ever
inserted twice (the insertion-ordered visited list is duplicate-free, and a
URL is fetched/extracted only at its insertion), and the pages actually
extracted are a subsequence of the distinct visited URLs, so no URL is
visited a second time. -/
theorem crawl_visited_bounded (net : String → Option ScrapedData)
    (site_id base_url : String) (mp : Nat) :
    (crawlVisited net site_id base_url mp).Nodup ∧
    (crawlVisited net site_id base_url mp).length ≤ mp ∧
    ((crawl_website net site_id base_url mp).map PageRecord.url).Sublist
      (crawlVisited net site_id base_url mp) := by
  refine ⟨crawlLoop_visited_nodup net site_id base_url mp [base_url] [] [] []
      List.nodup_nil, ?_,
    crawlLoop_results_urls net site_id base_url mp [base_url] [] [] [] (by simp)⟩
  have h := crawlLoop_visited_length net site_id base_url mp [base_url] [] [] []
  simp only [crawlVisited, List.length_nil] at h ⊢
  omega

/-- **C6.** During every crawl, every URL ever appended to the frontier after
the seed starts with the seed URL as a string prefix; and an outbound link of
a successfully extracted page is enqueued if and only if it starts with the
seed URL and is not in the visited set at that moment (the filter applied to
every extracted page's links). -/
theorem crawl_frontier_scoping (net : String → Option ScrapedData)
    (site_id base_url : String) (mp : Nat) :
    (∀ l ∈ crawlLog net site_id base_url mp,
        startswith l base_url = true ∧ base_url.toList <+: l.toList) ∧
    (∀ visited links l, l ∈ enqueuedLinks base_url visited links ↔
        (l ∈ links ∧ startswith l base_url = true ∧ l ∉ visited)) := by
  constructor
  · intro l hl
    have h := crawlLoop_log_scoped net site_id base_url mp [base_url] [] [] []
      (by simp) l hl
    exact ⟨h, Iff.mp List.isPrefixOf_iff_prefix h⟩
  · intro visited links l
    simp [enqueuedLinks, List.mem_filter, List.elem_iff, and_assoc]

/-- **C1 (amended).** Every PageRecord id returned by a crawl is
`"<siteId>-<seq>"` where `seq` is the size of the visited set at extraction
time: the sequence numbers are 1-based and strictly increasing in visit
order, but a skipped or failed fetch also consumes a visited slot, so the
n-th record's sequence can exceed n and consecutive records can have
non-consecutive numbers. -/
theorem crawl_ids_strictly_increasing (net : String → Option ScrapedData)
    (site_id base_url : String) (mp : Nat) :
    (∀ r ∈ crawl_website net site_id base_url mp,
        r.id = mkId site_id r.seq ∧ 1 ≤ r.seq) ∧
    ((crawl_website net site_id base_url mp).map PageRecord.seq).Pairwise (· < ·) :=
  crawlLoop_seq_inv net site_id base_url mp [base_url] [] [] [] (by simp) (by simp)

/-- **C1 (counterexample).** In the crawl of `netGap` the second returned
record has id `"s-3"`, not `"s-2"`: the failed fetch of `"ba"` joined the
visited set before fetching and therefore consumed sequence number 2, so
returned sequence numbers are not gap-free as the claim states. -/
theorem crawl_ids_gap :
    (crawl_website netGap "s" "b" 10).map PageRecord.id = ["s-1", "s-3"] ∧
    (["s-1", "s-3"] : List String) ≠ ["s-1", "s-2"] := by
  constructor
  · simp +decide [crawl_website, crawlLoop, netGap, enqueuedLinks, startswith,
      mkRecord, mkId]
  · decide

/-- **C9.** For every html input, the extractor's headers mapping has a key
for a level exactly when at least one element of that level matched, and the
value is always the full list of matched texts, whitespace-trimmed, in
document order — never collapsed to a bare string; in particular a page with
two `<h2>` tags yields a two-element sequence. -/
theorem headers_level_always_list (doc : HtmlDoc) :
    (alistFind (parseHeaders doc) "h1" =
        if doc.h1 = [] then none else some (doc.h1.map pyStrip)) ∧
    (alistFind (parseHeaders doc) "h2" =
        if doc.h2 = [] then none else some (doc.h2.map pyStrip)) ∧
    (alistFind (parseHeaders doc) "h3" =
        if doc.h3 = [] then none else some (doc.h3.map pyStrip)) ∧
    parseHeaders { title := none, h1 := [], h2 := ["First ", " Second"], h3 := [],
                   textContent := "", hrefs := [] } =
      [("h2", ["First", "Second"])] := by
  refine ⟨?_, ?_, ?_, by decide⟩ <;>
    rcases h1e : doc.h1 with _ | _ <;> rcases h2e : doc.h2 with _ | _ <;>
      rcases h3e : doc.h3 with _ | _ <;>
    simp [parseHeaders, alistFind, h1e, h2e, h3e]

end Scraper

/-! ## normalize_data.py lemmas -/

namespace NormalizeData

theorem mergePage_sub_pages (o : SiteObj) (p : NPage) :
    (mergePage o p).sub_pages =
      add_sub_page o.sub_pages ((p.title).getD "Untitled") (pyGet p.data) := by
  unfold mergePage
  split <;> rfl

theorem mergePage_source_id (o : SiteObj) (p : NPage) :
    (mergePage o p).source.id = o.source.id := by
  unfold mergePage
  split <;> rfl

theorem processPage_skip_ne (m : List (String × SiteObj)) (p : NPage) (k : String)
    (h : pageKey p ≠ k) : alistFind (processPage m p) k = alistFind m k := by
  unfold processPage
  cases hf : alistFind m (pageKey p) with
  | some o => exact alistFind_update_ne m (pageKey p) k _ h
  | none =>
      rw [alistFind_update_ne _ _ _ _ h, alistFind_append_left _ _ _ _ h]

theorem processPage_find_eq (m : List (String × SiteObj)) (p : NPage) :
    alistFind (processPage m p) (pageKey p) =
      some (mergePage ((alistFind m (pageKey p)).getD (initSite (pageKey p) p)) p) := by
  unfold processPage
  cases hf : alistFind m (pageKey p) with
  | some o =>
      dsimp only
      rw [alistFind_update_eq, hf]
      rfl
  | none =>
      dsimp only
      rw [alistFind_update_eq, alistFind_append_right _ _ _ _ hf]
      simp

theorem processPage_keys (m : List (String × SiteObj)) (p : NPage) :
    (processPage m p).map Prod.fst =
      if pageKey p ∈ m.map Prod.fst then m.map Prod.fst
      else m.map Prod.fst ++ [pageKey p] := by
  unfold processPage
  cases hf : alistFind m (pageKey p) with
  | some o =>
      dsimp only
      have hmem : pageKey p ∈ m.map Prod.fst := by
        by_contra hmem
        have hn := (alistFind_none_iff m (pageKey p)).mpr hmem
        rw [hf] at hn
        exact Option.noConfusion hn
      rw [alistUpdate_keys, if_pos hmem]
  | none =>
      dsimp only
      rw [alistUpdate_keys, if_neg ((alistFind_none_iff m (pageKey p)).mp hf)]
      simp

theorem aggregate_pages_concat (pages : List NPage) (p : NPage) :
    aggregate_pages (pages ++ [p]) = processPage (aggregate_pages pages) p := by
  unfold aggregate_pages
  rw [List.foldl_append]
  rfl

theorem groupOf_concat (pages : List NPage) (p : NPage) (k : String) :
    groupOf (pages ++ [p]) k =
      groupOf pages k ++ (if pageKey p = k then [p] else []) := by
  unfold groupOf
  rw [List.filter_append]
  by_cases h : pageKey p = k <;> simp [h]

theorem subAggregate_concat (g : List NPage) (p : NPage) :
    subAggregate (g ++ [p]) =
      add_sub_page (subAggregate g) ((p.title).getD "Untitled") (pyGet p.data) := by
  unfold subAggregate
  rw [List.foldl_append]
  rfl

/-- The `sub_pages` stored under a key are exactly the fold of
`add_sub_page` over that key's group. -/
theorem find_agg_sub_pages (pages : List NPage) (k : String) :
    (alistFind (aggregate_pages pages) k).map SiteObj.sub_pages =
      if groupOf pages k = [] then none
      else some (subAggregate (groupOf pages k)) := by
  induction pages using List.reverseRecOn with
  | nil => simp [aggregate_pages, groupOf, alistFind]
  | append_singleton l p ih =>
      rw [aggregate_pages_concat, groupOf_concat]
      by_cases hk : pageKey p = k
      · subst hk
        rw [processPage_find_eq, if_pos rfl]
        cases hf : alistFind (aggregate_pages l) (pageKey p) with
        | none =>
            rw [hf] at ih
            rw [show Option.map SiteObj.sub_pages none = none from rfl] at ih
            have hg : groupOf l (pageKey p) = [] := by
              by_contra hne
              rw [if_neg hne] at ih
              exact Option.noConfusion ih
            rw [hg]
            simp [mergePage_sub_pages, subAggregate, initSite]
        | some o =>
            rw [hf] at ih
            rw [show Option.map SiteObj.sub_pages (some o) = some o.sub_pages from rfl] at ih
            have hg : groupOf l (pageKey p) ≠ [] := by
              intro he
              rw [if_pos he] at ih
              exact Option.noConfusion ih
            rw [if_neg hg] at ih
            have ho : o.sub_pages = subAggregate (groupOf l (pageKey p)) :=
              Option.some.inj ih
            rw [if_neg (by simp), subAggregate_concat]
            simp [mergePage_sub_pages, ho]
      · rw [processPage_skip_ne _ _ _ hk, if_neg hk]
        simpa using ih

end NormalizeData

/-! ## add_sub_page list lemmas -/

theorem add_sub_page_noop (subs : List SubPage) (t d : String)
    (h : pyStrip d = "" ∨ is_clean_text d = false ∨ d ∈ subs.map SubPage.data) :
    add_sub_page subs t d = subs := by
  unfold add_sub_page
  split_ifs with g1 g2 g3
  · rfl
  · rfl
  · rfl
  · exfalso
    rcases h with h | h | h
    · exact g1 h
    · have : is_clean_text d = true := by simpa using g2
      rw [h] at this
      exact Bool.noConfusion this
    · rcases List.mem_map.mp h with ⟨sp, hsp, rfl⟩
      exact g3 (List.any_eq_true.mpr ⟨sp, hsp, by simp⟩)

theorem add_sub_page_mem_data (subs : List SubPage) (t d s : String)
    (h : s ∈ subs.map SubPage.data) :
    s ∈ (add_sub_page subs t d).map SubPage.data := by
  unfold add_sub_page
  split_ifs <;> simp_all

theorem add_sub_page_self_mem (subs : List SubPage) (t d : String)
    (h1 : ¬ pyStrip d = "") (h2 : is_clean_text d = true) :
    d ∈ (add_sub_page subs t d).map SubPage.data := by
  unfold add_sub_page
  rw [if_neg h1, h2]
  rw [if_neg (by simp)]
  by_cases g : (subs.any fun sp => sp.data == d) = true
  · rw [if_pos g]
    rcases List.any_eq_true.mp g with ⟨sp, hsp, hbeq⟩
    have hd : sp.data = d := by simpa using hbeq
    exact List.mem_map.mpr ⟨sp, hsp, hd⟩
  · rw [if_neg g]
    simp

namespace NormalizeData

theorem subAggregate_absorbs (g : List NPage) (p : NPage) (hp : p ∈ g) :
    pyStrip (pyGet p.data) = "" ∨ is_clean_text (pyGet p.data) = false ∨
      pyGet p.data ∈ (subAggregate g).map SubPage.data := by
  induction g using List.reverseRecOn with
  | nil => cases hp
  | append_singleton l q ih =>
      rw [subAggregate_concat]
      rcases List.mem_append.mp hp with hp | hp
      · rcases ih hp with h | h | h
        · exact Or.inl h
        · exact Or.inr (Or.inl h)
        · exact Or.inr (Or.inr (add_sub_page_mem_data _ _ _ _ h))
      · rcases List.mem_singleton.mp hp with rfl
        by_cases h1 : pyStrip (pyGet p.data) = ""
        · exact Or.inl h1
        by_cases h2 : is_clean_text (pyGet p.data) = true
        · exact Or.inr (Or.inr (add_sub_page_self_mem _ _ _ h1 h2))
        · exact Or.inr (Or.inl (by simpa using h2))

theorem foldl_add_sub_page_noop (h : List NPage) (S : List SubPage)
    (hh : ∀ p ∈ h, pyStrip (pyGet p.data) = "" ∨ is_clean_text (pyGet p.data) = false ∨
        pyGet p.data ∈ S.map SubPage.data) :
    h.foldl (fun sps p => add_sub_page sps ((p.title).getD "Untitled") (pyGet p.data)) S
      = S := by
  induction h with
  | nil => rfl
  | cons p h' ih =>
      rw [List.foldl_cons, add_sub_page_noop _ _ _ (hh p (by simp))]
      exact ih (fun q hq => hh q (by simp [hq]))

theorem subAggregate_idem (g : List NPage) :
    subAggregate (g ++ g) = subAggregate g := by
  unfold subAggregate
  rw [List.foldl_append]
  exact foldl_add_sub_page_noop g (subAggregate g)
    (fun p hp => subAggregate_absorbs g p hp)

/-- **C4.** Aggregation is idempotent with respect to `sub_pages`: for every
PageRecord sequence and every site key, aggregating the sequence
concatenated with itself stores exactly the same ordered `sub_pages` list as
aggregating it once, because `add_sub_page` drops any page whose `data` is
already stored (or filtered) the first time around. -/
theorem aggregate_sub_pages_idempotent (pages : List NPage) (k : String) :
    (alistFind (aggregate_pages (pages ++ pages)) k).map SiteObj.sub_pages =
      (alistFind (aggregate_pages pages) k).map SiteObj.sub_pages := by
  rw [find_agg_sub_pages, find_agg_sub_pages]
  have hg : groupOf (pages ++ pages) k = groupOf pages k ++ groupOf pages k := by
    unfold groupOf
    rw [List.filter_append]
  rw [hg]
  by_cases he : groupOf pages k = []
  · simp [he]
  · rw [if_neg (by simp [he]), if_neg he, subAggregate_idem]

theorem add_sub_page_clean_inv (subs : List SubPage) (t d : String)
    (h : ∀ sp ∈ subs, pyStrip sp.data ≠ "" ∧ is_clean_text sp.data = true) :
    ∀ sp ∈ add_sub_page subs t d, pyStrip sp.data ≠ "" ∧ is_clean_text sp.data = true := by
  unfold add_sub_page
  split_ifs with g1 g2 g3
  · exact h
  · exact h
  · exact h
  · intro sp hsp
    rcases List.mem_append.mp hsp with hsp | hsp
    · exact h sp hsp
    · rcases List.mem_singleton.mp hsp with rfl
      exact ⟨g1, by simpa using g2⟩

theorem subAggregate_clean (g : List NPage) :
    ∀ sp ∈ subAggregate g, pyStrip sp.data ≠ "" ∧ is_clean_text sp.data = true := by
  induction g using List.reverseRecOn with
  | nil =>
      intro sp hsp
      cases hsp
  | append_singleton l p ih =>
      rw [subAggregate_concat]
      exact add_sub_page_clean_inv _ _ _ ih

/-- **C7.** In every aggregated output, no stored sub-page has data that is
empty or whitespace-only, and every stored sub-page's data passes the
clean-text filter (at most 10% of characters outside the allowed charset);
and empty text never passes the filter. -/
theorem sub_pages_never_unclean (pages : List NPage) (k : String) (obj : SiteObj)
    (h : alistFind (aggregate_pages pages) k = some obj) :
    (∀ sp ∈ obj.sub_pages, pyStrip sp.data ≠ "" ∧ is_clean_text sp.data = true) ∧
    is_clean_text "" = false := by
  refine ⟨?_, rfl⟩
  have hf := find_agg_sub_pages pages k
  rw [h] at hf
  by_cases he : groupOf pages k = []
  · rw [if_pos he] at hf
    exact Option.noConfusion hf
  · rw [if_neg he] at hf
    have hsub : obj.sub_pages = subAggregate (groupOf pages k) := Option.some.inj hf
    intro sp hsp
    exact subAggregate_clean (groupOf pages k) sp (hsub ▸ hsp)

/-- Concrete instance of `sub_pages_never_unclean` at `ndSample`. -/
theorem sub_pages_never_unclean_witness :
    (∀ sp ∈ ((alistFind (aggregate_pages ndSample) "1").getD default).sub_pages,
        pyStrip sp.data ≠ "" ∧ is_clean_text sp.data = true) ∧
    is_clean_text "" = false :=
  sub_pages_never_unclean ndSample "1"
    ((alistFind (aggregate_pages ndSample) "1").getD default) (by decide)

end NormalizeData

/-! ## Order bridge: executable comparison vs the String order -/

theorem charListLt_iff : ∀ l₁ l₂ : List Char, charListLt l₁ l₂ = true ↔ List.lt l₁ l₂
  | l₁, [] => by
      constructor
      · intro h
        rw [show charListLt l₁ [] = false by cases l₁ <;> rfl] at h
        exact Bool.noConfusion h
      · intro h
        cases h
  | [], b :: bs => by
      constructor
      · intro _
        exact List.lt.nil b bs
      · intro _
        rfl
  | a :: as, b :: bs => by
      by_cases hab : a < b
      · simp only [charListLt, if_pos hab, true_iff]
        exact List.lt.head _ _ hab
      · by_cases hba : b < a
        · simp only [charListLt, if_neg hab, if_pos hba, Bool.false_eq_true, false_iff]
          intro h
          cases h with
          | head as bs h3 => exact hab h3
          | tail h1 h2 h3 => exact h2 hba
        · simp only [charListLt, if_neg hab, if_neg hba]
          rw [charListLt_iff as bs]
          constructor
          · intro h
            exact List.lt.tail hab hba h
          · intro h
            cases h with
            | head as bs h3 => exact absurd h3 hab
            | tail h1 h2 h3 => exact h3

theorem pyStrLt_iff_lt (a b : String) : pyStrLt a b = true ↔ a < b := by
  rw [String.lt_iff_toList_lt]
  rw [show (a.toList < b.toList) = List.Lex (· < ·) a.toList b.toList from rfl]
  rw [← List.lt_iff_lex_lt]
  exact charListLt_iff a.toList b.toList

theorem pyStrLt_irrefl (a : String) : pyStrLt a a = false := by
  by_cases h : pyStrLt a a = true
  · exact absurd (lt_irrefl a ((pyStrLt_iff_lt a a).mp h)) not_false
  · simpa using h

/-! ## normalize_japanese_schools_ouput.py lemmas -/

namespace NormalizeJP

theorem mergeJPage_school_id (o : JSiteObj) (p : JPage) :
    (mergeJPage o p).school_id = o.school_id := rfl

theorem mergeJPage_flat (o : JSiteObj) (p : JPage) :
    flatFields (mergeJPage o p) = flatOfPage p := rfl

theorem mergeJPage_structured (o : JSiteObj) (p : JPage) :
    (mergeJPage o p).structured_data = p.details.getD [] := rfl

theorem processJPage_skip (st : Nat × List (String × JSiteObj)) (p : JPage)
    (h : jSiteKey p = none) : processJPage st p = st := by
  unfold processJPage
  rw [h]

theorem find_processJPage_ne (st : Nat × List (String × JSiteObj)) (p : JPage)
    (k : String) (h : jSiteKey p ≠ some k) :
    alistFind (processJPage st p).2 k = alistFind st.2 k := by
  unfold processJPage
  cases hk : jSiteKey p with
  | none => rfl
  | some sid =>
      have hne : sid ≠ k := fun he => h (he ▸ hk)
      dsimp only
      cases hf : alistFind st.2 sid with
      | some o =>
          dsimp only
          exact alistFind_update_ne _ _ _ _ hne
      | none =>
          dsimp only
          rw [alistFind_update_ne _ _ _ _ hne, alistFind_append_left _ _ _ _ hne]

theorem find_processJPage_eq (st : Nat × List (String × JSiteObj)) (p : JPage)
    (sid : String) (h : jSiteKey p = some sid) :
    alistFind (processJPage st p).2 sid =
      some (mergeJPage ((alistFind st.2 sid).getD (initJSite st.1 sid p)) p) := by
  unfold processJPage
  rw [h]
  dsimp only
  cases hf : alistFind st.2 sid with
  | some o =>
      dsimp only
      rw [alistFind_update_eq, hf]
      rfl
  | none =>
      dsimp only
      rw [alistFind_update_eq, alistFind_append_right _ _ _ _ hf]
      simp

theorem aggState_concat (pages : List JPage) (p : JPage) :
    aggState (pages ++ [p]) = processJPage (aggState pages) p := by
  unfold aggState
  rw [List.foldl_append]
  rfl

theorem jGroupOf_concat (pages : List JPage) (p : JPage) (k : String) :
    jGroupOf (pages ++ [p]) k =
      jGroupOf pages k ++ (if jSiteKey p = some k then [p] else []) := by
  unfold jGroupOf
  rw [List.filter_append]
  by_cases h : jSiteKey p = some k <;> simp [h]

/-- **C2 (amended).** In the bilingual aggregator every recognized flat field
and the `structured_data` blob are assigned unconditionally on every record
of the group (`page.get(field, "")` / `page.get("details", {})`): the stored
values are exactly those of the **last** record of the group, so a later
record lacking a field resets it to the empty value instead of leaving the
previous value in place. -/
theorem flat_fields_last_write (pages : List JPage) (k : String) :
    (alistFind (aggregate_pages pages) k).map
        (fun o => (flatFields o, o.structured_data)) =
      ((jGroupOf pages k).getLast?).map
        (fun p => (flatOfPage p, p.details.getD [])) := by
  induction pages using List.reverseRecOn with
  | nil => rfl
  | append_singleton l p ih =>
      show (alistFind (aggState (l ++ [p])).2 k).map _ = _
      rw [aggState_concat, jGroupOf_concat]
      by_cases hk : jSiteKey p = some k
      · rw [if_pos hk, find_processJPage_eq _ _ _ hk, List.getLast?_concat]
        rw [show ∀ o : JSiteObj, Option.map
            (fun o => (flatFields o, o.structured_data)) (some o) =
            some (flatFields o, o.structured_data) from fun _ => rfl]
        rw [mergeJPage_flat, mergeJPage_structured]
        rfl
      · rw [if_neg hk, find_processJPage_ne _ _ _ hk, List.append_nil]
        exact ih

/-- **C2 (counterexample).** `jNamed` stores `name_jp = "Alpha"`; the later
`jNameless` in the same group has no `name` key, yet the aggregated record
ends with `name_jp = ""` — the stored value is not left unchanged. -/
theorem flat_field_overwritten_by_absent_field :
    (alistFind (aggregate_pages [jNamed, jNameless]) "x").map JSiteObj.name_jp =
      some "" ∧
    (alistFind (aggregate_pages [jNamed]) "x").map JSiteObj.name_jp =
      some "Alpha" ∧
    ("" : String) ≠ "Alpha" := by
  refine ⟨by decide, by decide, by decide⟩

theorem jSiteKey_eq_none (p : JPage)
    (h : pyGet p.url = "" ∨ (pyGet p.url).toList.getLast? = some '/') :
    jSiteKey p = none := by
  unfold jSiteKey
  rcases h with h | h
  · rw [if_pos h]
  · by_cases hu : pyGet p.url = ""
    · rw [if_pos hu]
    · rw [if_neg hu]
      have hseg : lastSegment (pyGet p.url) = "" := by
        unfold lastSegment
        have hrev : (pyGet p.url).toList.reverse.head? = some '/' := by
          rw [List.head?_reverse]
          exact h
        cases hr : (pyGet p.url).toList.reverse with
        | nil =>
            rw [hr] at hrev
            exact Option.noConfusion hrev
        | cons c cs =>
            rw [hr] at hrev
            have hc : c = '/' := by
              simpa using hrev
            subst hc
            simp [List.takeWhile]
      rw [if_pos hseg]

/-- **C10.** A record whose `url` is absent, empty, or ends with `'/'` (so
the trailing path segment is empty) is skipped entirely by the bilingual
aggregator: removing it from the input leaves the aggregated output
unchanged, whatever other fields it carries. -/
theorem invalid_url_record_skipped (p : JPage) (l1 l2 : List JPage)
    (h : pyGet p.url = "" ∨ (pyGet p.url).toList.getLast? = some '/') :
    aggregate_pages (l1 ++ p :: l2) = aggregate_pages (l1 ++ l2) := by
  unfold aggregate_pages aggState
  rw [List.foldl_append, List.foldl_append, List.foldl_cons,
    processJPage_skip _ _ (jSiteKey_eq_none p h)]

/-- Concrete instance of `invalid_url_record_skipped`: dropping the record
with url `"http://x/"` changes nothing. -/
theorem invalid_url_record_skipped_witness :
    aggregate_pages ([] ++ jSlashUrl :: [jGood]) = aggregate_pages ([] ++ [jGood]) :=
  invalid_url_record_skipped jSlashUrl [] [jGood] (Or.inr (by decide))

end NormalizeJP

/-! ## One record per site key: key order and school ids -/

theorem firstSeen_step_nodup (l : List String) (acc : List String) (h : acc.Nodup) :
    (l.foldl (fun acc k => if k ∈ acc then acc else acc ++ [k]) acc).Nodup := by
  induction l generalizing acc with
  | nil => exact h
  | cons k l ih =>
      rw [List.foldl_cons]
      by_cases hk : k ∈ acc
      · rw [if_pos hk]
        exact ih _ h
      · rw [if_neg hk]
        exact ih _ (by simp [List.nodup_append, h, hk])

namespace NormalizeData

theorem aggKeys_general (pages : List NPage) (m : List (String × SiteObj)) :
    (pages.foldl processPage m).map Prod.fst =
      (pages.map pageKey).foldl
        (fun acc k => if k ∈ acc then acc else acc ++ [k]) (m.map Prod.fst) := by
  induction pages generalizing m with
  | nil => rfl
  | cons p pages ih =>
      rw [List.foldl_cons, List.map_cons, List.foldl_cons, ih (processPage m p),
        processPage_keys]

end NormalizeData

namespace NormalizeJP

theorem processJPage_keys (st : Nat × List (String × JSiteObj)) (p : JPage)
    (sid : String) (h : jSiteKey p = some sid) :
    (processJPage st p).2.map Prod.fst =
      if sid ∈ st.2.map Prod.fst then st.2.map Prod.fst
      else st.2.map Prod.fst ++ [sid] := by
  unfold processJPage
  rw [h]
  dsimp only
  cases hf : alistFind st.2 sid with
  | some o =>
      dsimp only
      have hmem : sid ∈ st.2.map Prod.fst := by
        by_contra hmem
        have hn := (alistFind_none_iff st.2 sid).mpr hmem
        rw [hf] at hn
        exact Option.noConfusion hn
      rw [alistUpdate_keys, if_pos hmem]
  | none =>
      dsimp only
      rw [alistUpdate_keys, if_neg ((alistFind_none_iff st.2 sid).mp hf)]
      simp

theorem jAggKeys_general (pages : List JPage) (st : Nat × List (String × JSiteObj)) :
    (pages.foldl processJPage st).2.map Prod.fst =
      (pages.filterMap jSiteKey).foldl
        (fun acc k => if k ∈ acc then acc else acc ++ [k]) (st.2.map Prod.fst) := by
  induction pages generalizing st with
  | nil => rfl
  | cons p pages ih =>
      rw [List.foldl_cons, List.filterMap_cons]
      cases hk : jSiteKey p with
      | none =>
          rw [processJPage_skip _ _ hk]
          exact ih st
      | some sid =>
          rw [List.foldl_cons, ih (processJPage st p), processJPage_keys _ _ _ hk]

theorem alistUpdate_map_snd {α β : Type} (m : List (String × α)) (k : String)
    (f : α → α) (g : α → β) (hg : ∀ v, g (f v) = g v) :
    (alistUpdate m k f).map (fun kv => g kv.2) = m.map (fun kv => g kv.2) := by
  induction m with
  | nil => rfl
  | cons kv rest ih =>
      obtain ⟨a, v⟩ := kv
      by_cases ha : a = k
      · simp only [alistUpdate, List.map_cons, if_pos ha] at ih ⊢
        rw [show g ((a, f v).2) = g v from hg v]
        simpa [alistUpdate] using ih
      · simp only [alistUpdate, List.map_cons, if_neg ha] at ih ⊢
        simpa [alistUpdate] using ih

theorem jAgg_school_ids (pages : List JPage) (st : Nat × List (String × JSiteObj))
    (h1 : st.1 = st.2.length + 1)
    (h2 : st.2.map (fun kv => kv.2.school_id) = List.range' 1 st.2.length) :
    (pages.foldl processJPage st).1 = (pages.foldl processJPage st).2.length + 1 ∧
    (pages.foldl processJPage st).2.map (fun kv => kv.2.school_id) =
      List.range' 1 (pages.foldl processJPage st).2.length := by
  induction pages generalizing st with
  | nil => exact ⟨h1, h2⟩
  | cons p pages ih =>
      rw [List.foldl_cons]
      apply ih
      · cases hk : jSiteKey p with
        | none => rw [processJPage_skip _ _ hk]; exact h1
        | some sid =>
            unfold processJPage
            rw [hk]
            dsimp only
            cases hf : alistFind st.2 sid with
            | some o =>
                dsimp only
                rw [show (alistUpdate st.2 sid fun o => mergeJPage o p).length =
                    st.2.length from by simp [alistUpdate]]
                exact h1
            | none =>
                dsimp only
                rw [show (alistUpdate (st.2 ++ [(sid, initJSite st.1 sid p)]) sid
                      fun o => mergeJPage o p).length = st.2.length + 1 from by
                    simp [alistUpdate]]
                omega
      · cases hk : jSiteKey p with
        | none => rw [processJPage_skip _ _ hk]; exact h2
        | some sid =>
            unfold processJPage
            rw [hk]
            dsimp only
            cases hf : alistFind st.2 sid with
            | some o =>
                dsimp only
                rw [alistUpdate_map_snd _ _ _ _ (fun v => mergeJPage_school_id v p),
                  show (alistUpdate st.2 sid fun o => mergeJPage o p).length =
                    st.2.length from by simp [alistUpdate]]
                exact h2
            | none =>
                dsimp only
                rw [alistUpdate_map_snd _ _ _ _ (fun v => mergeJPage_school_id v p),
                  show (alistUpdate (st.2 ++ [(sid, initJSite st.1 sid p)]) sid
                      fun o => mergeJPage o p).length = st.2.length + 1 from by
                    simp [alistUpdate]]
                rw [List.map_append, h2, List.range'_1_concat]
                simp [initJSite, h1, Nat.add_comm]

end NormalizeJP

/-- **C8.** Both aggregators produce exactly one output record per distinct
site key occurring in the input, with output order equal to the first-seen
order of the keys (the fold that keeps only first occurrences), and the key
list is duplicate-free; in the bilingual variant the `school_id` values are
the sequential integers 1, 2, ... assigned in first-seen key order. -/
theorem aggregate_one_school_per_key :
    (∀ pages : List NormalizeData.NPage,
        (NormalizeData.aggregate_pages pages).map Prod.fst =
          firstSeen (pages.map NormalizeData.pageKey) ∧
        ((NormalizeData.aggregate_pages pages).map Prod.fst).Nodup) ∧
    (∀ pages : List NormalizeJP.JPage,
        (NormalizeJP.aggregate_pages pages).map Prod.fst =
          firstSeen (pages.filterMap NormalizeJP.jSiteKey) ∧
        ((NormalizeJP.aggregate_pages pages).map Prod.fst).Nodup ∧
        (NormalizeJP.aggregate_pages pages).map (fun kv => kv.2.school_id) =
          List.range' 1 (NormalizeJP.aggregate_pages pages).length) := by
  constructor
  · intro pages
    have hk : (NormalizeData.aggregate_pages pages).map Prod.fst =
        firstSeen (pages.map NormalizeData.pageKey) :=
      NormalizeData.aggKeys_general pages []
    refine ⟨hk, ?_⟩
    rw [hk]
    exact firstSeen_step_nodup _ [] List.nodup_nil
  · intro pages
    have hk : (NormalizeJP.aggregate_pages pages).map Prod.fst =
        firstSeen (pages.filterMap NormalizeJP.jSiteKey) :=
      NormalizeJP.jAggKeys_general pages (1, [])
    have hid := NormalizeJP.jAgg_school_ids pages (1, []) rfl rfl
    exact ⟨hk, by rw [hk]; exact firstSeen_step_nodup _ [] List.nodup_nil, hid.2⟩

/-! ## Earliest-scrapedAt source tracking (normalize_data.py lines 199-207) -/

namespace NormalizeData

theorem mergePage_source (o : SiteObj) (p : NPage) :
    (mergePage o p).source =
      if pyGet p.scrapedAt ≠ "" ∧ (o.source.scrapedAt = "" ∨
          pyStrLt (pyGet p.scrapedAt) o.source.scrapedAt = true) then
        { id := o.source.id, url := pyGet p.url, title := pyGet p.title,
          scrapedAt := pyGet p.scrapedAt }
      else o.source := by
  by_cases hC : pyGet p.scrapedAt ≠ "" ∧ (o.source.scrapedAt = "" ∨
      pyStrLt (pyGet p.scrapedAt) o.source.scrapedAt = true)
  · simp only [mergePage, if_pos hC]
  · simp only [mergePage, if_neg hC]

theorem mergePage_fresh_source (p : NPage) (k : String) :
    (mergePage (initSite k p) p).source =
      { id := k, url := pyGet p.url, title := pyGet p.title,
        scrapedAt := pyGet p.scrapedAt } := by
  rw [mergePage_source]
  rw [if_neg ?hneg]
  · rfl
  case hneg =>
    rintro ⟨h1, h2 | h2⟩
    · exact h1 h2
    · rw [show (initSite k p).source.scrapedAt = pyGet p.scrapedAt from rfl,
        pyStrLt_irrefl] at h2
      exact Bool.noConfusion h2

/-- The `source` of the record stored under a key, characterized from the
key's group: absent iff the group is empty; the snapshot of the group's
first record (with empty timestamp) when no record of the group carries a
non-empty `scrapedAt`; otherwise the snapshot of the earliest-scraped
record of the group, ties to the first encountered. -/
theorem find_agg_source (pages : List NPage) (k : String) :
    (alistFind (aggregate_pages pages) k = none ∧ groupOf pages k = []) ∨
    (∃ obj p₀ g', alistFind (aggregate_pages pages) k = some obj ∧
        groupOf pages k = p₀ :: g' ∧
        (∀ q ∈ groupOf pages k, pyGet q.scrapedAt = "") ∧
        obj.source.url = pyGet p₀.url ∧ obj.source.title = pyGet p₀.title ∧
        obj.source.scrapedAt = "") ∨
    (∃ obj, alistFind (aggregate_pages pages) k = some obj ∧
        IsEarliestSource (groupOf pages k) obj.source) := by
  induction pages using List.reverseRecOn with
  | nil => exact Or.inl ⟨rfl, rfl⟩
  | append_singleton l p ih =>
      rw [aggregate_pages_concat, groupOf_concat]
      by_cases hk : pageKey p = k
      case neg =>
        rw [processPage_skip_ne _ _ _ hk, if_neg hk, List.append_nil]
        exact ih
      case pos =>
      subst hk
      rw [processPage_find_eq, if_pos rfl]
      rcases ih with ⟨hfind, hgroup⟩ | ⟨obj, p₀, g', hfind, hgroup, hall, hurl, htitle, hts⟩ |
          ⟨obj, hfind, g₁, w, g₂, hdec, hwne, hurl, htitle, hts, hmin, hfirst⟩
      · -- the key is fresh: the new object is built from `p` alone
        rw [hfind, hgroup, Option.getD_none, List.nil_append]
        by_cases hc : pyGet p.scrapedAt = ""
        · refine Or.inr (Or.inl ⟨_, p, [], rfl, rfl, ?_, ?_, ?_, ?_⟩)
          · intro q hq
            rcases List.mem_singleton.mp hq with rfl
            exact hc
          · rw [mergePage_fresh_source]
          · rw [mergePage_fresh_source]
          · rw [mergePage_fresh_source]
            exact hc
        · refine Or.inr (Or.inr ⟨_, rfl, [], p, [], rfl, hc, ?_, ?_, ?_, ?_, ?_⟩)
          · rw [mergePage_fresh_source]
          · rw [mergePage_fresh_source]
          · rw [mergePage_fresh_source]
          · intro q hq hqne
            rcases List.mem_singleton.mp hq with rfl
            exact le_refl _
          · intro q hq
            cases hq
      · -- every record of the group so far has an empty timestamp
        rw [hfind, Option.getD_some, hgroup]
        by_cases hc : pyGet p.scrapedAt = ""
        · refine Or.inr (Or.inl ⟨_, p₀, g' ++ [p], rfl, by simp, ?_, ?_, ?_, ?_⟩)
          · intro q hq
            rcases List.mem_append.mp hq with hq | hq
            · exact hall q (hgroup ▸ hq)
            · rcases List.mem_singleton.mp hq with rfl
              exact hc
          · rw [mergePage_source, if_neg (fun hx => hx.1 hc)]
            exact hurl
          · rw [mergePage_source, if_neg (fun hx => hx.1 hc)]
            exact htitle
          · rw [mergePage_source, if_neg (fun hx => hx.1 hc)]
            exact hts
        · have hCt : pyGet p.scrapedAt ≠ "" ∧ (obj.source.scrapedAt = "" ∨
              pyStrLt (pyGet p.scrapedAt) obj.source.scrapedAt = true) :=
            ⟨hc, Or.inl hts⟩
          refine Or.inr (Or.inr ⟨_, rfl, p₀ :: g', p, [], rfl, hc, ?_, ?_, ?_, ?_, ?_⟩)
          · rw [mergePage_source, if_pos hCt]
          · rw [mergePage_source, if_pos hCt]
          · rw [mergePage_source, if_pos hCt]
          · intro q hq hqne
            rcases List.mem_cons.mp (show q ∈ p₀ :: (g' ++ [p]) by simpa using hq)
              with rfl | hq2
            · exact absurd (hall q (hgroup ▸ List.mem_cons_self _ _)) hqne
            · rcases List.mem_append.mp hq2 with hq3 | hq3
              · exact absurd (hall q (hgroup ▸ List.mem_cons_of_mem _ hq3)) hqne
              · rcases List.mem_singleton.mp hq3 with rfl
                exact le_refl _
          · intro q hq hqne
            exact absurd (hall q (hgroup ▸ hq)) hqne
      · -- a winner `w` exists already
        rw [hfind, Option.getD_some]
        have hexne : obj.source.scrapedAt ≠ "" := by
          rw [hts]
          exact hwne
        by_cases hC : pyGet p.scrapedAt ≠ "" ∧ (obj.source.scrapedAt = "" ∨
            pyStrLt (pyGet p.scrapedAt) obj.source.scrapedAt = true)
        · -- `p` is strictly earlier than the stored winner: it takes over
          have hlt : pyGet p.scrapedAt < pyGet w.scrapedAt := by
            rcases hC.2 with hx | hx
            · exact absurd hx hexne
            · rw [hts] at hx
              exact (pyStrLt_iff_lt _ _).mp hx
          refine Or.inr (Or.inr ⟨_, rfl, g₁ ++ w :: g₂, p, [], by rw [hdec], hC.1,
            ?_, ?_, ?_, ?_, ?_⟩)
          · rw [mergePage_source, if_pos hC]
          · rw [mergePage_source, if_pos hC]
          · rw [mergePage_source, if_pos hC]
          · intro q hq hqne
            rcases List.mem_append.mp hq with hq | hq
            · exact le_of_lt (lt_of_lt_of_le hlt (hmin q (hdec ▸ hq) hqne))
            · rcases List.mem_singleton.mp hq with rfl
              exact le_refl _
          · intro q hq hqne
            exact lt_of_lt_of_le hlt (hmin q (hdec ▸ hq) hqne)
        · -- the stored winner survives
          have hsrc : (mergePage obj p).source = obj.source := by
            rw [mergePage_source, if_neg hC]
          have hkeep : ∀ hqne : pyGet p.scrapedAt ≠ "",
              pyGet w.scrapedAt ≤ pyGet p.scrapedAt := by
            intro hqne
            by_contra hwp
            apply hC
            refine ⟨hqne, Or.inr ?_⟩
            rw [hts]
            exact (pyStrLt_iff_lt _ _).mpr (lt_of_not_le hwp)
          refine Or.inr (Or.inr ⟨_, rfl, g₁, w, g₂ ++ [p], ?_, hwne, ?_, ?_, ?_, ?_, ?_⟩)
          · rw [hdec]
            simp
          · rw [hsrc]
            exact hurl
          · rw [hsrc]
            exact htitle
          · rw [hsrc]
            exact hts
          · intro q hq hqne
            rcases List.mem_append.mp hq with hq | hq
            · exact hmin q (hdec ▸ hq) hqne
            · rcases List.mem_singleton.mp hq with rfl
              exact hkeep hqne
          · intro q hq hqne
            exact hfirst q hq hqne

/-- **C3.** For every PageRecord sequence and every site key whose group has
at least one record with a non-empty `scrapedAt`, the aggregated `source`
snapshot (`url`, `title`, `scrapedAt`) comes from a single record `w` of the
group whose `scrapedAt` is a lexicographic minimum of the group's non-empty
timestamps, and every record before `w` in the group with a non-empty
timestamp is strictly later — ties go to the first record encountered. -/
theorem source_from_earliest_scraped (pages : List NPage) (k : String) (obj : SiteObj)
    (hfind : alistFind (aggregate_pages pages) k = some obj)
    (hne : ∃ p ∈ groupOf pages k, pyGet p.scrapedAt ≠ "") :
    IsEarliestSource (groupOf pages k) obj.source := by
  rcases find_agg_source pages k with ⟨hn, _⟩ |
      ⟨obj', p₀, g', hf, hg, hall, _⟩ | ⟨obj', hf, hE⟩
  · rw [hfind] at hn
    exact Option.noConfusion hn
  · rcases hne with ⟨p, hp, hps⟩
    exact absurd (hall p hp) hps
  · rw [hfind] at hf
    obtain rfl : obj' = obj := (Option.some.inj hf).symm
    exact hE

/-- Concrete instance of `source_from_earliest_scraped` at `ndSample`: the
second page (scraped a day earlier) supplies the `source` snapshot. -/
theorem source_from_earliest_scraped_witness :
    IsEarliestSource (groupOf ndSample "1")
      ((alistFind (aggregate_pages ndSample) "1").getD default).source :=
  source_from_earliest_scraped ndSample "1"
    ((alistFind (aggregate_pages ndSample) "1").getD default) (by decide)
    ⟨{ id := some "1-1", url := some "http://s1/a", title := some "A",
       scrapedAt := some "2024-01-02T00:00:00Z", data := some "alpha text" },
     by decide, by decide⟩

end NormalizeData
